import Mathlib

/-
Shallow embedding of shellsherpa.py: the session registry (ClientPool),
sessions (Client), commands (Message), tag lookup with quote stripping and
the star wildcard, autorun seeding at construction time, and the decimal
timestamp format.  Mutation of Python objects is modelled by explicit state
passing; object identity of Client values is modelled by an oid field and
object identity of Message values by indices into an explicit message store.
The registry lock is modelled by a locked flag plus a trace of lock events,
so that which operations acquire or release the lock is visible in the
state.  Python exceptions (the ValueError of list.remove, the IndexError of
split()[0]) are modelled by a raised flag respectively by Option.
-/

namespace ShellSherpa

/-- One calendar time, second resolution, as consumed by
datetime.strftime with format YYYYMMDDHHMMSS. -/
structure Timestamp where
  year : Nat
  month : Nat
  day : Nat
  hour : Nat
  minute : Nat
  second : Nat
deriving DecidableEq

/-- Decimal digit character for d, i.e. chr(48 + d). -/
def digitChar (d : Nat) : Char := Char.ofNat (48 + d)

/-- Decimal digits of n, most significant first, with explicit fuel
(fuel at least n suffices).  Models ordinary decimal printing. -/
def decimalDigits : Nat → Nat → List Char
  | 0, _ => []
  | Nat.succ f, n =>
    if n = 0 then [] else decimalDigits f (n / 10) ++ [digitChar (n % 10)]

/-- Decimal representation of a natural number, as Python str / format
produce it. -/
def natDecimal (n : Nat) : String :=
  if n = 0 then "0" else String.mk (decimalDigits n n)

/-- Zero padding to width two, as the strftime fields m d H M S do. -/
def pad2 (n : Nat) : String :=
  if n < 10 then "0" ++ natDecimal n else natDecimal n

/-- Embeds generate_timestamp (line 25): format YYYYMMDDHHMMSS of the
given time (the year unpadded as glibc strftime prints it, the other
fields zero padded to width two). -/
def generate_timestamp (t : Timestamp) : String :=
  natDecimal t.year ++ pad2 t.month ++ pad2 t.day ++ pad2 t.hour
    ++ pad2 t.minute ++ pad2 t.second

/-- True for the decimal digit characters 0 to 9. -/
def isDigitChar (c : Char) : Bool := 48 ≤ c.toNat && c.toNat ≤ 57

/-- First whitespace delimited token of s, or none when there is no such
token.  Models the Python expression command.split()[0], which raises
IndexError (here: none) on an empty or all whitespace string. -/
def firstToken (s : String) : Option String :=
  match s.data.dropWhile Char.isWhitespace with
  | [] => none
  | l => some (String.mk (l.takeWhile (fun c => !c.isWhitespace)))

/-- Embeds class Message (lines 75 to 87): command text, creation
timestamp string, optional results, job name. -/
structure Message where
  command : String
  timestamp : String
  results : Option String
  job_name : String
deriving DecidableEq

/-- Job name selection of Message.__init__: Python truthiness sends both
None and the empty string to the command.split()[0] branch. -/
def jobNameOf (command : String) (job_name : Option String) : Option String :=
  match job_name with
  | some j => if j.isEmpty then firstToken command else some j
  | none => firstToken command

/-- Embeds Message.__init__ (lines 77 to 84).  none models the
IndexError raised when the default job name is needed but the command
text has no token. -/
def mkMessage (command : String) (job_name : Option String) (now : Timestamp) :
    Option Message :=
  (jobNameOf command job_name).map (fun j =>
    { command := command, timestamp := generate_timestamp now,
      results := none, job_name := j })

/-- Embeds Message.get_fullname (lines 86 to 87). -/
def Message.get_fullname (m : Message) : String :=
  m.job_name ++ "." ++ m.timestamp

/-- Models the assignment message.results = data (line 55) performed
through a reference r into the message store. -/
def set_result (store : List Message) (r : Nat) (out : String) : List Message :=
  match store.get? r with
  | some m => store.set r { m with results := some out }
  | none => store

/-- Embeds class Client (lines 146 to 184).  The oid field models Python
object identity (list membership and list.remove compare by identity
here, since Client defines no __eq__).  The send_queue holds references
(indices) into the message store, because Python queues hold references
to shared Message objects. -/
structure Client where
  oid : Nat
  keep_alive : Bool
  uuid : String
  addr : String
  send_queue : List Nat
  tags : List String
deriving DecidableEq

/-- Embeds Client.shutdown (lines 169 to 171). -/
def shutdown (c : Client) : Client := { c with keep_alive := false }

/-- Embeds Client.send (lines 183 to 184): enqueue a message reference. -/
def client_send (c : Client) (r : Nat) : Client :=
  { c with send_queue := c.send_queue ++ [r] }

/-- Embeds Client.add_tag (lines 173 to 176). -/
def add_tag (c : Client) (t : String) : Client :=
  if t ∈ c.tags then c else { c with tags := c.tags ++ [t] }

/-- Embeds Client.remove_tag (lines 178 to 181). -/
def remove_tag (c : Client) (t : String) : Client :=
  if t ∈ c.tags ∧ t ≠ c.uuid ∧ t ≠ c.addr then
    { c with tags := c.tags.erase t }
  else c

/-- Initial tag list of a new Client (lines 154 to 159): uuid, addr, then
the process wide default tag when set. -/
def initTags (uuid addr : String) (default_tag : Option String) : List String :=
  [uuid, addr] ++ (match default_tag with | some d => [d] | none => [])

/-- Allocate one Message per command text, all with the default job name
and the same creation time; none as soon as one construction raises. -/
def mkMessages : List String → Timestamp → Option (List Message)
  | [], _ => some []
  | c :: rest, now =>
    match mkMessage c none now, mkMessages rest now with
    | some m, some ms => some (m :: ms)
    | _, _ => none

/-- Embeds Client.__init__ (lines 148 to 167).  The autoruns table is a
total function (dict.get with default []); for every initial tag its
command list is collected in tag order, each command is wrapped in a new
Message and enqueued.  Message allocation appends to the store; the
queue holds the fresh store indices.  Returns none when some autorun
command text has no token (Message raises IndexError). -/
def client_init (store : List Message) (oid : Nat) (uuid addr : String)
    (default_tag : Option String) (autoruns : String → List String)
    (now : Timestamp) : Option (List Message × Client) :=
  match mkMessages
      ((initTags uuid addr default_tag).foldl (fun acc t => acc ++ autoruns t) [])
      now with
  | none => none
  | some msgs =>
    some (store ++ msgs,
      { oid := oid, keep_alive := true, uuid := uuid, addr := addr,
        send_queue := (List.range msgs.length).map (fun i => store.length + i),
        tags := initTags uuid addr default_tag })

/-- Lock events appended to the pool trace by acquire and release. -/
inductive LockEv where
  | acq : LockEv
  | rel : LockEv
deriving DecidableEq

/-- Embeds class ClientPool (lines 94 to 144): the client list, the state
of clients_lock, and the trace of lock events performed so far. -/
structure ClientPool where
  clients : List Client
  locked : Bool
  events : List LockEv
deriving DecidableEq

/-- Result of an operation that can raise: the raised flag and the pool
state it leaves behind (on raise, the lock is left as the operation left
it, since the Python code has no try or finally). -/
structure RemRes where
  raised : Bool
  pool : ClientPool
deriving DecidableEq

/-- Embeds ClientPool.add_client (lines 100 to 105): acquire, append,
release. -/
def add_client (p : ClientPool) (c : Client) : ClientPool :=
  { clients := p.clients ++ [c], locked := false,
    events := p.events ++ [LockEv.acq, LockEv.rel] }

/-- The in place mutation client.shutdown() seen through the pool list:
the element with the given identity gets keep_alive false. -/
def shutMap (x : Nat) (l : List Client) : List Client :=
  l.map (fun c => if c.oid = x then shutdown c else c)

/-- Embeds ClientPool.remove_client (lines 107 to 113): acquire the lock,
call shutdown on the client, then list.remove it.  When the client is
not in the list, list.remove raises ValueError and the release on line
113 is never reached, so the lock stays held. -/
def remove_client (p : ClientPool) (x : Nat) : RemRes :=
  if (shutMap x p.clients).any (fun c => c.oid == x) then
    { raised := false,
      pool := { clients := (shutMap x p.clients).eraseP (fun c => c.oid == x),
                locked := false,
                events := p.events ++ [LockEv.acq, LockEv.rel] } }
  else
    { raised := true,
      pool := { clients := shutMap x p.clients, locked := true,
                events := p.events ++ [LockEv.acq] } }

/-- A quote character, double or single (codes 34 and 39). -/
def isQuoteChar (c : Char) : Bool :=
  c == Char.ofNat 34 || c == Char.ofNat 39

/-- Embeds the Python expression tag.strip(double quote, single quote)
(line 133): remove all leading and trailing quote characters. -/
def stripQuotes (s : String) : String :=
  String.mk (((s.data.dropWhile isQuoteChar).reverse.dropWhile isQuoteChar).reverse)

/-- Embeds ClientPool.find_clients_by_tag (lines 132 to 139): strip
quotes, star matches every client (and returns the client list itself,
an alias, which matters in remove_clients_by_tag), otherwise filter by
tag membership.  No lock is taken. -/
def find_clients_by_tag (p : ClientPool) (tag : String) : List Client :=
  if stripQuotes tag = "*" then p.clients
  else p.clients.filter (fun c => decide (stripQuotes tag ∈ c.tags))

/-- Count map of tags, embedding ClientPool.get_tags (lines 115 to 123)
with the insertion ordered dict modelled as an association list. -/
def bumpTag (d : List (String × Nat)) (t : String) : List (String × Nat) :=
  if d.any (fun e => e.1 == t) then
    d.map (fun e => if e.1 == t then (e.1, e.2 + 1) else e)
  else d ++ [(t, 1)]

/-- Embeds ClientPool.get_tags (lines 115 to 123).  No lock is taken. -/
def get_tags (p : ClientPool) : List (String × Nat) :=
  p.clients.foldl (fun d c => c.tags.foldl bumpTag d) []

/-- The snapshot loop of remove_clients_by_tag for a non star tag: the
list comprehension in find_clients_by_tag built a fresh list, so the
iteration walks that snapshot while remove_client mutates the pool; a
raise inside remove_client aborts the loop and propagates. -/
def snapLoop : List Client → ClientPool → RemRes
  | [], p => { raised := false, pool := p }
  | c :: t, p =>
    let r := remove_client p c.oid
    if r.raised then r else snapLoop t r.pool

/-- The star loop of remove_clients_by_tag: find_clients_by_tag returned
the client list itself, so the Python for statement iterates by index
over the very list that remove_client shrinks.  Fuel bounds the number
of iterations; clients.length + 1 is always enough because the index
grows by one per step and the list never grows. -/
def starLoopF : Nat → ClientPool → Nat → ClientPool
  | 0, p, _ => p
  | Nat.succ f, p, i =>
    if h : i < p.clients.length then
      starLoopF f (remove_client p ((p.clients.get ⟨i, h⟩).oid)).pool (i + 1)
    else p

/-- Embeds ClientPool.remove_clients_by_tag (lines 125 to 127): iterate
find_clients_by_tag(tag) and remove_client each element.  For the star
tag the iterated list is an alias of the pool list (index based
iteration over a shrinking list); otherwise it is a fresh snapshot. -/
def remove_clients_by_tag (p : ClientPool) (tag : String) : RemRes :=
  if stripQuotes tag = "*" then
    { raised := false, pool := starLoopF (p.clients.length + 1) p 0 }
  else
    snapLoop (find_clients_by_tag p tag) p

/-- One client object receives the message reference r (the same shared
reference for every receiver). -/
def pool_send (p : ClientPool) (x : Nat) (r : Nat) : ClientPool :=
  { p with clients :=
      p.clients.map (fun c => if c.oid = x then client_send c r else c) }

/-- Embeds ClientPool.send_message_by_tag (lines 141 to 144): enqueue the
one message reference r onto every client found by tag.  No copy is
made: each matched client receives the same reference.  No lock is
taken. -/
def send_message_by_tag (p : ClientPool) (tag : String) (r : Nat) : ClientPool :=
  (find_clients_by_tag p tag).foldl (fun q c => pool_send q c.oid r) p

/-- Map to object identities. -/
def oids (l : List Client) : List Nat := l.map Client.oid

/-- Tag operations an operator can apply to one session. -/
inductive TagOp where
  | add : String → TagOp
  | rem : String → TagOp

/-- Apply one tag operation. -/
def applyOp (c : Client) : TagOp → Client
  | TagOp.add t => add_tag c t
  | TagOp.rem t => remove_tag c t

/-- Apply a sequence of tag operations. -/
def applyOps (c : Client) (ops : List TagOp) : Client :=
  ops.foldl applyOp c

/-- Survivors of the star removal loop: every second element, starting
with the element at index one. -/
def oddIdx : List Client → List Client
  | [] => []
  | [_] => []
  | _ :: b :: t => b :: oddIdx t

/-- Fixture: a creation time. -/
def wTime : Timestamp := ⟨2026, 10, 12, 3, 4, 5⟩

/-- Fixture: two sessions both tagged web. -/
def wClientA : Client := ⟨0, true, "u1", "10.0.0.1", [], ["u1", "10.0.0.1", "web"]⟩

/-- Fixture: second session tagged web. -/
def wClientB : Client := ⟨1, true, "u2", "10.0.0.2", [], ["u2", "10.0.0.2", "web"]⟩

/-- Fixture: registry holding the two web sessions, lock free, no lock
events yet. -/
def wPool2 : ClientPool := ⟨[wClientA, wClientB], false, []⟩

/-- Fixture: registry holding only the first session. -/
def wPool1 : ClientPool := ⟨[wClientA], false, []⟩

/-- Fixture: the three character string quote star quote, a tag string no
session holds. -/
def wQuotedStar : String := String.mk [Char.ofNat 39, Char.ofNat 42, Char.ofNat 39]

/-- Fixture: autorun table mapping the tag red to whoami then id. -/
def wAutoruns (s : String) : List String :=
  if s = "red" then ["whoami", "id"] else []

/-- Fixture: one broadcast message, text echo hi, result still unset. -/
def wMsg : Message := ⟨"echo hi", "20261012030405", none, "echo"⟩

/-- Fixture: message store holding only that message, at index zero. -/
def wStore : List Message := [wMsg]

/- ------------------------------------------------------------------ -/
/- Helper lemmas                                                      -/
/- ------------------------------------------------------------------ -/

theorem shutMap_not_mem (l : List Client) (x : Nat) (h : x ∉ oids l) :
    shutMap x l = l := by
  unfold shutMap
  have hc : ∀ c ∈ l, (if c.oid = x then shutdown c else c) = c := by
    intro c hc
    rw [if_neg]
    intro he
    exact h (he ▸ List.mem_map_of_mem Client.oid hc)
  rw [List.map_congr_left hc, List.map_id']

theorem any_oid_false (l : List Client) (x : Nat) (h : x ∉ oids l) :
    (l.any (fun c => c.oid == x)) = false := by
  apply Bool.eq_false_iff.mpr
  intro hb
  rcases List.any_eq_true.mp hb with ⟨c, hc, he⟩
  have hcx : c.oid = x := by simpa using he
  exact h (hcx ▸ List.mem_map_of_mem Client.oid hc)

theorem applyOp_fields (c : Client) (op : TagOp) :
    (applyOp c op).uuid = c.uuid ∧ (applyOp c op).addr = c.addr := by
  cases op with
  | add t =>
    simp only [applyOp, add_tag]
    split <;> exact ⟨rfl, rfl⟩
  | rem t =>
    simp only [applyOp, remove_tag]
    split <;> exact ⟨rfl, rfl⟩

theorem applyOp_mem_keep (c : Client) (op : TagOp) (x : String)
    (hx : x ∈ c.tags) (hid : x = c.uuid ∨ x = c.addr) :
    x ∈ (applyOp c op).tags := by
  cases op with
  | add t =>
    simp only [applyOp, add_tag]
    split
    · exact hx
    · exact List.mem_append_left _ hx
  | rem t =>
    simp only [applyOp, remove_tag]
    split
    · next h =>
      have hxt : x ≠ t := by
        rcases hid with h1 | h1
        · exact fun he => h.2.1 (he ▸ h1 ▸ rfl)
        · exact fun he => h.2.2 (he ▸ h1 ▸ rfl)
      exact (List.mem_erase_of_ne hxt).mpr hx
    · exact hx

theorem applyOps_inv (ops : List TagOp) (c : Client)
    (hu : c.uuid ∈ c.tags) (ha : c.addr ∈ c.tags) :
    (applyOps c ops).uuid = c.uuid ∧ (applyOps c ops).addr = c.addr ∧
      c.uuid ∈ (applyOps c ops).tags ∧ c.addr ∈ (applyOps c ops).tags := by
  induction ops generalizing c with
  | nil => exact ⟨rfl, rfl, hu, ha⟩
  | cons op ops ih =>
    have hf := applyOp_fields c op
    have hu2 : (applyOp c op).uuid ∈ (applyOp c op).tags := by
      rw [hf.1]
      exact applyOp_mem_keep c op c.uuid hu (Or.inl rfl)
    have ha2 : (applyOp c op).addr ∈ (applyOp c op).tags := by
      rw [hf.2]
      exact applyOp_mem_keep c op c.addr ha (Or.inr rfl)
    have step : applyOps c (op :: ops) = applyOps (applyOp c op) ops := rfl
    rw [step]
    rcases ih (applyOp c op) hu2 ha2 with ⟨h1, h2, h3, h4⟩
    exact ⟨h1.trans hf.1, h2.trans hf.2, hf.1 ▸ h3, hf.2 ▸ h4⟩

theorem mkMessage_command (s : String) (jn : Option String) (now : Timestamp)
    (m : Message) (h : mkMessage s jn now = some m) : m.command = s := by
  rcases Option.map_eq_some'.mp h with ⟨j, hj, hm⟩
  rw [← hm]

theorem mkMessages_commands (cmds : List String) (now : Timestamp) :
    ∀ msgs : List Message, mkMessages cmds now = some msgs →
      msgs.map Message.command = cmds := by
  induction cmds with
  | nil =>
    intro msgs h
    cases h
    rfl
  | cons c rest ih =>
    intro msgs h
    unfold mkMessages at h
    cases hm : mkMessage c none now with
    | none =>
      rw [hm] at h
      cases hms : mkMessages rest now with
      | none => rw [hms] at h; simp at h
      | some ms => rw [hms] at h; simp at h
    | some m =>
      rw [hm] at h
      cases hms : mkMessages rest now with
      | none => rw [hms] at h; simp at h
      | some ms =>
        rw [hms] at h
        cases h
        simp [mkMessage_command c none now m hm, ih ms hms]

theorem queue_lookup (msgs : List Message) :
    ∀ store : List Message,
      ((List.range msgs.length).map (fun i => store.length + i)).map
          (fun r => (store ++ msgs)[r]?.map Message.command)
        = msgs.map (fun m => some m.command) := by
  induction msgs with
  | nil => intro store; rfl
  | cons m t ih =>
    intro store
    rw [show (m :: t).length = t.length + 1 from rfl, List.range_succ_eq_map]
    simp only [List.map_cons, List.map_map]
    congr 1
    · rw [show store.length + 0 = store.length from rfl,
        List.getElem?_append_right (le_refl store.length)]
      simp
    · rw [show store ++ m :: t = (store ++ [m]) ++ t from by simp]
      have hfun : ((fun r => ((store ++ [m]) ++ t)[r]?.map Message.command) ∘
            (fun i => store.length + i) ∘ Nat.succ)
          = (fun r => ((store ++ [m]) ++ t)[r]?.map Message.command) ∘
            (fun i => (store ++ [m]).length + i) := by
        funext i
        have hidx : store.length + Nat.succ i = (store ++ [m]).length + i := by
          simp [List.length_append]
          omega
        simp only [Function.comp]
        rw [hidx]
      rw [hfun]
      have := ih (store ++ [m])
      simpa [List.map_map] using this

/- ------------------------------------------------------------------ -/
/- Claim theorems                                                     -/
/- ------------------------------------------------------------------ -/

/-- C10: constructing a Command from a text that is empty or consists
only of whitespace, without an explicit job name, does not produce a
Command: Message raises IndexError (none) instead of inventing a default
job name. -/
theorem mkMessage_whitespace_fails (s : String) (now : Timestamp)
    (h : ∀ c ∈ s.data, c.isWhitespace = true) :
    mkMessage s none now = none := by
  unfold mkMessage jobNameOf firstToken
  rw [List.dropWhile_eq_nil_iff.mpr h]
  rfl

/-- C10 witness at the three space string. -/
theorem mkMessage_whitespace_fails_witness :
    mkMessage "   " none wTime = none :=
  mkMessage_whitespace_fails "   " wTime (by decide)

/-- C4: after any finite sequence of addTag and removeTag calls, the
session id and peer address are still members of the tags list, and
removeTag applied to the id or the address is a no op, not an error. -/
theorem identity_tags_permanent (c : Client) (ops : List TagOp)
    (hu : c.uuid ∈ c.tags) (ha : c.addr ∈ c.tags) :
    (c.uuid ∈ (applyOps c ops).tags ∧ c.addr ∈ (applyOps c ops).tags) ∧
      remove_tag c c.uuid = c ∧ remove_tag c c.addr = c := by
  refine ⟨⟨(applyOps_inv ops c hu ha).2.2.1, (applyOps_inv ops c hu ha).2.2.2⟩, ?_, ?_⟩
  · unfold remove_tag
    rw [if_neg]
    rintro ⟨-, h2, -⟩
    exact h2 rfl
  · unfold remove_tag
    rw [if_neg]
    rintro ⟨-, -, h3⟩
    exact h3 rfl

/-- C4 witness: a concrete session, one tag added then an attempt to
remove the id. -/
theorem identity_tags_permanent_witness :
    (wClientA.uuid ∈ (applyOps wClientA [TagOp.add "x", TagOp.rem "u1"]).tags ∧
      wClientA.addr ∈ (applyOps wClientA [TagOp.add "x", TagOp.rem "u1"]).tags) ∧
      remove_tag wClientA wClientA.uuid = wClientA ∧
      remove_tag wClientA wClientA.addr = wClientA :=
  identity_tags_permanent wClientA [TagOp.add "x", TagOp.rem "u1"]
    (by decide) (by decide)

/-- C3 counterexample: removing a session that is not in the registry is
not a no op: list.remove raises ValueError and the lock release is never
reached, so the lock state changes from free to held; a second remove of
the same session in a row likewise raises rather than succeeding. -/
theorem remove_absent_cx :
    (remove_client ⟨[], false, []⟩ 0).raised = true ∧
      (remove_client ⟨[], false, []⟩ 0).pool.locked = true ∧
      (ClientPool.mk [] false []).locked = false ∧
      (remove_client (remove_client wPool1 0).pool 0).raised = true := by
  decide

/-- C3 amended: calling remove on a session that is absent from the
registry raises an error (ValueError from list.remove) and leaves the
lock held, because the release after the removal is never executed; the
collection itself is unchanged.  Only removal of a present session is
safe. -/
theorem remove_absent_raises (p : ClientPool) (x : Nat)
    (h : x ∉ oids p.clients) :
    remove_client p x =
      ⟨true, ⟨p.clients, true, p.events ++ [LockEv.acq]⟩⟩ := by
  unfold remove_client
  rw [shutMap_not_mem p.clients x h, any_oid_false p.clients x h]
  rfl

/-- C3 amended witness: removing an unknown identity from the one client
registry raises and keeps the lock. -/
theorem remove_absent_raises_witness :
    remove_client wPool1 5 = ⟨true, ⟨wPool1.clients, true, [LockEv.acq]⟩⟩ := by
  simpa using remove_absent_raises wPool1 5 (by decide)

/-- C6 counterexample: constructing a session while the process wide
default tag equals the peer address yields a tags list with a duplicate
entry, because Client.__init__ appends the default tag without any
membership check. -/
theorem construct_duplicate_tag_cx :
    ((client_init [] 0 "abc12345" "10.0.0.5" (some "10.0.0.5")
        (fun _ => []) wTime).map (fun r => r.2.tags))
      = some ["abc12345", "10.0.0.5", "10.0.0.5"] ∧
      ¬ (["abc12345", "10.0.0.5", "10.0.0.5"] : List String).Nodup := by
  constructor
  · decide
  · decide

/-- C6 amended: the tags list of a session contains no duplicates at
construction provided the generated id, the peer address and the default
tag (when set) are pairwise distinct (the constructor itself performs no
check for the default tag), and addTag preserves freedom from
duplicates, being a no op when the tag is already present. -/
theorem tags_nodup_amended :
    (∀ (store : List Message) (oid : Nat) (u a : String) (d : Option String)
        (au : String → List String) (now : Timestamp) (st : List Message)
        (c : Client),
        client_init store oid u a d au now = some (st, c) →
        u ≠ a → (∀ x, d = some x → x ≠ u ∧ x ≠ a) →
        c.tags.Nodup) ∧
      (∀ (c : Client) (t : String), c.tags.Nodup → (add_tag c t).tags.Nodup) := by
  constructor
  · intro store oid u a d au now st c h hua hd
    have htags : c.tags = initTags u a d := by
      unfold client_init at h
      split at h
      · exact absurd h (by simp)
      · cases h
        rfl
    rw [htags]
    cases d with
    | none =>
      simp [initTags, List.nodup_cons, hua]
    | some x =>
      have hx := hd x rfl
      simp [initTags, List.nodup_cons, hua, hx.1, hx.2]
      tauto
  · intro c t h
    unfold add_tag
    split
    · exact h
    · next hni =>
      simp [List.nodup_append, h, hni]

/-- C5 counterexample: a tag held by no session for which findByTag does
not return the empty list: the string quote star quote is in no tags
list, yet after quote stripping it becomes the wildcard and the full
session set is returned. -/
theorem find_unknown_tag_cx :
    (wPool2.clients.all (fun c => decide (wQuotedStar ∉ c.tags))) = true ∧
      find_clients_by_tag wPool2 wQuotedStar ≠ [] := by
  decide

/-- C5 amended: findByTag of the star tag returns exactly the current
full session set; for every tag whose quote stripped form is neither the
wildcard nor held by any session, findByTag returns the empty list
without failing and broadcast to it enqueues nothing on any session. -/
theorem find_wildcard_and_unknown :
    (∀ p : ClientPool, find_clients_by_tag p "*" = p.clients) ∧
      (∀ (p : ClientPool) (t : String) (r : Nat),
        stripQuotes t ≠ "*" → (∀ c ∈ p.clients, stripQuotes t ∉ c.tags) →
        find_clients_by_tag p t = [] ∧ send_message_by_tag p t r = p) := by
  constructor
  · intro p
    unfold find_clients_by_tag
    rw [if_pos (show stripQuotes "*" = "*" from by decide)]
  · intro p t r h1 h2
    have hfind : find_clients_by_tag p t = [] := by
      unfold find_clients_by_tag
      rw [if_neg h1, List.filter_eq_nil_iff]
      intro c hc
      simpa using h2 c hc
    refine ⟨hfind, ?_⟩
    unfold send_message_by_tag
    rw [hfind]
    rfl

/-- C5 amended witness: the wildcard on the two session registry, and an
unknown unquoted tag. -/
theorem find_wildcard_and_unknown_witness :
    find_clients_by_tag wPool2 "*" = wPool2.clients ∧
      (find_clients_by_tag wPool2 "zzz" = [] ∧
        send_message_by_tag wPool2 "zzz" 0 = wPool2) :=
  ⟨find_wildcard_and_unknown.1 wPool2,
    find_wildcard_and_unknown.2 wPool2 "zzz" 0 (by decide) (by decide)⟩

/-- C6 amended witness: a construction with a fresh default tag, and one
addTag call on an existing session. -/
theorem tags_nodup_amended_witness :
    (Client.mk 3 true "u9" "10.0.0.9" []
        ["u9", "10.0.0.9", "red"]).tags.Nodup ∧
      (add_tag wClientA "x").tags.Nodup :=
  ⟨tags_nodup_amended.1 [] 3 "u9" "10.0.0.9" (some "red") (fun _ => []) wTime
      [] (Client.mk 3 true "u9" "10.0.0.9" [] ["u9", "10.0.0.9", "red"])
      (by decide) (by decide)
      (by rintro x hx; cases hx; exact ⟨by decide, by decide⟩),
    tags_nodup_amended.2 wClientA "x" (by decide)⟩

/-- C7: at construction the autorun table is consulted for each
initially held tag in tag order and every listed command text is wrapped
in a fresh Message and enqueued, a tag absent from the table (lookup
yields the empty list) contributing nothing; in the scenario where the
table maps red to whoami then id and the initial tags include red (and
nothing for the id and address tags), exactly those two commands are
enqueued in that order; a later operator command is enqueued behind
them. -/
theorem autorun_seeding :
    (∀ (store : List Message) (oid : Nat) (u a : String) (d : Option String)
        (au : String → List String) (now : Timestamp) (st : List Message)
        (c : Client),
        client_init store oid u a d au now = some (st, c) →
        c.send_queue.map (fun r => st[r]?.map Message.command)
          = ((initTags u a d).foldl (fun acc t => acc ++ au t) []).map some) ∧
      (∀ (store : List Message) (oid : Nat) (u a : String)
        (au : String → List String) (now : Timestamp),
        au u = [] → au a = [] → au "red" = ["whoami", "id"] →
        client_init store oid u a (some "red") au now
          = some (store ++
              [Message.mk "whoami" (generate_timestamp now) none "whoami",
               Message.mk "id" (generate_timestamp now) none "id"],
              Client.mk oid true u a [store.length, store.length + 1]
                [u, a, "red"])) ∧
      (∀ (c : Client) (r : Nat),
        (client_send c r).send_queue = c.send_queue ++ [r]) := by
  refine ⟨?_, ?_, ?_⟩
  · intro store oid u a d au now st c h
    unfold client_init at h
    cases hm : mkMessages ((initTags u a d).foldl (fun acc t => acc ++ au t) []) now with
    | none => rw [hm] at h; simp at h
    | some msgs =>
      rw [hm] at h
      simp only [Option.some.injEq, Prod.mk.injEq] at h
      obtain ⟨hst, hc⟩ := h
      subst hst
      subst hc
      rw [show (Client.mk oid true u a
          ((List.range msgs.length).map (fun i => store.length + i))
          (initTags u a d)).send_queue
        = (List.range msgs.length).map (fun i => store.length + i) from rfl]
      rw [queue_lookup msgs store, ← mkMessages_commands _ now msgs hm]
      simp [List.map_map, Function.comp]
  · intro store oid u a au now h1 h2 h3
    unfold client_init
    rw [show (initTags u a (some "red")).foldl (fun acc t => acc ++ au t) []
        = [] ++ au u ++ au a ++ au "red" from rfl]
    rw [h1, h2, h3]
    rw [show mkMessages ([] ++ [] ++ [] ++ ["whoami", "id"]) now
        = some [Message.mk "whoami" (generate_timestamp now) none "whoami",
            Message.mk "id" (generate_timestamp now) none "id"] from by
      simp [mkMessages, mkMessage, jobNameOf,
        show firstToken "whoami" = some "whoami" from by decide,
        show firstToken "id" = some "id" from by decide]]
    simp [List.range_succ]
    rfl
  · intro c r
    rfl

/-- C7 witness: the red scenario at a concrete store, identity, address
and time, each clause of the theorem applied there. -/
theorem autorun_seeding_witness :
    ((Client.mk 7 true "u1" "a1" [0, 1] ["u1", "a1", "red"]).send_queue.map
        (fun r => ([Message.mk "whoami" (generate_timestamp wTime) none "whoami",
            Message.mk "id" (generate_timestamp wTime) none "id"] :
            List Message)[r]?.map Message.command)
      = ((initTags "u1" "a1" (some "red")).foldl
          (fun acc t => acc ++ wAutoruns t) []).map some) ∧
      client_init [] 7 "u1" "a1" (some "red") wAutoruns wTime
        = some ([] ++
            [Message.mk "whoami" (generate_timestamp wTime) none "whoami",
             Message.mk "id" (generate_timestamp wTime) none "id"],
            Client.mk 7 true "u1" "a1"
              [List.length ([] : List Message), List.length ([] : List Message) + 1]
              ["u1", "a1", "red"]) ∧
      (client_send wClientA 9).send_queue = wClientA.send_queue ++ [9] :=
  ⟨autorun_seeding.1 [] 7 "u1" "a1" (some "red") wAutoruns wTime
      [Message.mk "whoami" (generate_timestamp wTime) none "whoami",
        Message.mk "id" (generate_timestamp wTime) none "id"]
      (Client.mk 7 true "u1" "a1" [0, 1] ["u1", "a1", "red"])
      (by decide),
    autorun_seeding.2.1 [] 7 "u1" "a1" wAutoruns wTime
      (by decide) (by decide) (by decide),
    autorun_seeding.2.2 wClientA 9⟩

theorem dd_zero (f : Nat) : decimalDigits f 0 = [] := by
  cases f <;> rfl

theorem dd_fuel (f : Nat) : ∀ (g n : Nat), n ≤ f → n ≤ g →
    decimalDigits f n = decimalDigits g n := by
  induction f with
  | zero =>
    intro g n hf hg
    have h0 : n = 0 := Nat.le_zero.mp hf
    subst h0
    rw [dd_zero, dd_zero]
  | succ f ih =>
    intro g n hf hg
    by_cases h0 : n = 0
    · subst h0
      rw [dd_zero, dd_zero]
    · have hn : 0 < n := Nat.pos_of_ne_zero h0
      cases g with
      | zero => exact absurd hg (by omega)
      | succ g =>
        simp only [decimalDigits]
        rw [if_neg h0, if_neg h0]
        have hd : n / 10 < n := Nat.div_lt_self hn (by norm_num)
        rw [ih g (n / 10) (by omega) (by omega)]

theorem dd_len (k : Nat) : ∀ (n f : Nat), 10 ^ k ≤ n → n < 10 ^ (k + 1) →
    n ≤ f → (decimalDigits f n).length = k + 1 := by
  induction k with
  | zero =>
    intro n f h1 h2 hf
    have e0 : (10:Nat) ^ 0 = 1 := by norm_num
    have e1 : (10:Nat) ^ 1 = 10 := by norm_num
    rw [e0] at h1
    rw [e1] at h2
    cases f with
    | zero => exact absurd hf (by omega)
    | succ f =>
      simp only [decimalDigits]
      rw [if_neg (by omega)]
      rw [Nat.div_eq_of_lt h2, dd_zero]
      rfl
  | succ k ih =>
    intro n f h1 h2 hf
    have hp : (1:Nat) ≤ 10 ^ (k + 1) := Nat.one_le_pow _ _ (by norm_num)
    have hn : 0 < n := by omega
    cases f with
    | zero => exact absurd hf (by omega)
    | succ f =>
      simp only [decimalDigits]
      rw [if_neg (by omega), List.length_append]
      have e1 : 10 ^ k ≤ n / 10 := by
        rw [Nat.le_div_iff_mul_le (by norm_num)]
        calc 10 ^ k * 10 = 10 ^ (k + 1) := by ring
          _ ≤ n := h1
      have e2 : n / 10 < 10 ^ (k + 1) := by
        rw [Nat.div_lt_iff_lt_mul (by norm_num)]
        calc n < 10 ^ (k + 2) := h2
          _ = 10 ^ (k + 1) * 10 := by ring
      have e3 : n / 10 ≤ f := by
        have hd : n / 10 < n := Nat.div_lt_self hn (by norm_num)
        omega
      rw [ih (n / 10) f e1 e2 e3]
      rfl

theorem digitChar_isDigit (d : Nat) (h : d < 10) :
    isDigitChar (digitChar d) = true := by
  interval_cases d <;> decide

theorem dd_digits (f : Nat) : ∀ (n : Nat) (c : Char),
    c ∈ decimalDigits f n → isDigitChar c = true := by
  induction f with
  | zero => intro n c hc; simp [decimalDigits] at hc
  | succ f ih =>
    intro n c hc
    simp only [decimalDigits] at hc
    by_cases h0 : n = 0
    · rw [if_pos h0] at hc
      simp at hc
    · rw [if_neg h0] at hc
      rcases List.mem_append.mp hc with h | h
      · exact ih _ _ h
      · have hcd : c = digitChar (n % 10) := by simpa using h
        subst hcd
        exact digitChar_isDigit _ (Nat.mod_lt _ (by norm_num))

theorem natDecimal_len1 (n : Nat) (h : n ≤ 9) : (natDecimal n).length = 1 := by
  unfold natDecimal
  by_cases h0 : n = 0
  · rw [if_pos h0]
    rfl
  · rw [if_neg h0]
    exact dd_len 0 n n (by simpa using Nat.pos_of_ne_zero h0) (by norm_num; omega)
      (le_refl n)

theorem natDecimal_len2 (n : Nat) (h1 : 10 ≤ n) (h2 : n ≤ 99) :
    (natDecimal n).length = 2 := by
  unfold natDecimal
  rw [if_neg (by omega)]
  exact dd_len 1 n n (by norm_num; omega) (by norm_num; omega) (le_refl n)

theorem natDecimal_len4 (n : Nat) (h1 : 1000 ≤ n) (h2 : n ≤ 9999) :
    (natDecimal n).length = 4 := by
  unfold natDecimal
  rw [if_neg (by omega)]
  exact dd_len 3 n n (by norm_num; omega) (by norm_num; omega) (le_refl n)

theorem pad2_len (n : Nat) (h : n ≤ 99) : (pad2 n).length = 2 := by
  unfold pad2
  by_cases h10 : n < 10
  · rw [if_pos h10, String.length_append, natDecimal_len1 n (by omega)]
    rfl
  · rw [if_neg h10]
    exact natDecimal_len2 n (by omega) h

theorem natDecimal_digits (n : Nat) :
    ∀ c ∈ (natDecimal n).data, isDigitChar c = true := by
  unfold natDecimal
  by_cases h0 : n = 0
  · rw [if_pos h0]
    intro c hc
    have : c = Char.ofNat 48 := by
      simpa using hc
    subst this
    decide
  · rw [if_neg h0]
    intro c hc
    exact dd_digits n n c hc

theorem pad2_digits (n : Nat) :
    ∀ c ∈ (pad2 n).data, isDigitChar c = true := by
  unfold pad2
  split
  · intro c hc
    rw [String.data_append] at hc
    rcases List.mem_append.mp hc with h | h
    · have : c = Char.ofNat 48 := by simpa using h
      subst this
      decide
    · exact natDecimal_digits n c h
  · exact natDecimal_digits n

theorem generate_timestamp_len (t : Timestamp)
    (hy1 : 1000 ≤ t.year) (hy2 : t.year ≤ 9999) (hmo : t.month ≤ 99)
    (hd : t.day ≤ 99) (hh : t.hour ≤ 99) (hmi : t.minute ≤ 99)
    (hs : t.second ≤ 99) : (generate_timestamp t).length = 14 := by
  unfold generate_timestamp
  rw [String.length_append, String.length_append, String.length_append,
    String.length_append, String.length_append,
    natDecimal_len4 t.year hy1 hy2, pad2_len t.month hmo, pad2_len t.day hd,
    pad2_len t.hour hh, pad2_len t.minute hmi, pad2_len t.second hs]

theorem generate_timestamp_digits (t : Timestamp) :
    ((generate_timestamp t).data.all isDigitChar) = true := by
  rw [List.all_eq_true]
  unfold generate_timestamp
  intro c hc
  rw [String.data_append, String.data_append, String.data_append,
    String.data_append, String.data_append] at hc
  rcases List.mem_append.mp hc with h | h
  rotate_left
  · exact pad2_digits _ c h
  rcases List.mem_append.mp h with h | h
  rotate_left
  · exact pad2_digits _ c h
  rcases List.mem_append.mp h with h | h
  rotate_left
  · exact pad2_digits _ c h
  rcases List.mem_append.mp h with h | h
  rotate_left
  · exact pad2_digits _ c h
  rcases List.mem_append.mp h with h | h
  · exact natDecimal_digits _ c h
  · exact pad2_digits _ c h

/-- C8: fullName is jobName, a dot, then the creation timestamp; the
timestamp of a constructed Message is the formatted creation time, a 14
digit string for any realistic time; the job name defaults to the first
whitespace delimited token of the command text; and two Messages created
in the same second with different job names have different fullNames. -/
theorem fullname_key :
    (∀ m : Message, m.get_fullname = m.job_name ++ "." ++ m.timestamp) ∧
      (∀ (c : String) (jn : Option String) (now : Timestamp) (m : Message),
        mkMessage c jn now = some m → m.timestamp = generate_timestamp now) ∧
      (∀ (c w : String) (now : Timestamp), firstToken c = some w →
        mkMessage c none now
          = some (Message.mk c (generate_timestamp now) none w)) ∧
      (∀ now : Timestamp,
        1000 ≤ now.year → now.year ≤ 9999 → now.month ≤ 99 → now.day ≤ 99 →
        now.hour ≤ 99 → now.minute ≤ 99 → now.second ≤ 99 →
        (generate_timestamp now).length = 14 ∧
          ((generate_timestamp now).data.all isDigitChar) = true) ∧
      (∀ (c1 c2 j1 j2 : String) (now : Timestamp) (m1 m2 : Message),
        ¬ j1.isEmpty → ¬ j2.isEmpty → j1 ≠ j2 →
        mkMessage c1 (some j1) now = some m1 →
        mkMessage c2 (some j2) now = some m2 →
        m1.get_fullname ≠ m2.get_fullname) := by
  refine ⟨fun m => rfl, ?_, ?_, ?_, ?_⟩
  · intro c jn now m h
    rcases Option.map_eq_some'.mp h with ⟨j, hj, hm⟩
    rw [← hm]
  · intro c w now h
    unfold mkMessage jobNameOf
    rw [h]
    rfl
  · intro now h1 h2 h3 h4 h5 h6 h7
    exact ⟨generate_timestamp_len now h1 h2 h3 h4 h5 h6 h7,
      generate_timestamp_digits now⟩
  · intro c1 c2 j1 j2 now m1 m2 hj1 hj2 hne h1 h2
    have e1 : m1 = Message.mk c1 (generate_timestamp now) none j1 := by
      simp only [mkMessage, jobNameOf] at h1
      rw [if_neg hj1] at h1
      simpa using h1.symm
    have e2 : m2 = Message.mk c2 (generate_timestamp now) none j2 := by
      simp only [mkMessage, jobNameOf] at h2
      rw [if_neg hj2] at h2
      simpa using h2.symm
    subst e1
    subst e2
    intro heq
    have hd : ((j1 ++ ".") ++ generate_timestamp now).data
        = ((j2 ++ ".") ++ generate_timestamp now).data :=
      congrArg String.data heq
    rw [String.data_append, String.data_append, String.data_append,
      String.data_append] at hd
    have hd2 := List.append_cancel_right hd
    have hd3 := List.append_cancel_right hd2
    exact hne (String.ext hd3)

/-- C8 witness: all clauses at the fixture time and at concrete job
names echo and ls. -/
theorem fullname_key_witness :
    (wMsg.get_fullname = wMsg.job_name ++ "." ++ wMsg.timestamp) ∧
      (Message.mk "echo hi" (generate_timestamp wTime) none "echo").timestamp
        = generate_timestamp wTime ∧
      mkMessage "echo hi" none wTime
        = some (Message.mk "echo hi" (generate_timestamp wTime) none "echo") ∧
      ((generate_timestamp wTime).length = 14 ∧
        ((generate_timestamp wTime).data.all isDigitChar) = true) ∧
      (Message.mk "a" (generate_timestamp wTime) none "echo").get_fullname
        ≠ (Message.mk "b" (generate_timestamp wTime) none "ls").get_fullname :=
  ⟨fullname_key.1 wMsg,
    fullname_key.2.1 "echo hi" none wTime
      (Message.mk "echo hi" (generate_timestamp wTime) none "echo") (by decide),
    fullname_key.2.2.1 "echo hi" "echo" wTime (by decide),
    fullname_key.2.2.2.1 wTime (by decide) (by decide) (by decide) (by decide)
      (by decide) (by decide) (by decide),
    fullname_key.2.2.2.2 "a" "b" "echo" "ls" wTime
      (Message.mk "a" (generate_timestamp wTime) none "echo")
      (Message.mk "b" (generate_timestamp wTime) none "ls")
      (by decide) (by decide) (by decide) (by decide) (by decide)⟩

theorem sendFold (r : Nat) (cs : List Client) :
    ∀ (l : List Client) (lk : Bool) (ev : List LockEv),
      cs.foldl (fun q c => pool_send q c.oid r) (ClientPool.mk l lk ev)
        = ClientPool.mk
            (l.map (fun c =>
              { c with send_queue := c.send_queue
                  ++ List.replicate ((cs.map Client.oid).count c.oid) r }))
            lk ev := by
  induction cs with
  | nil =>
    intro l lk ev
    simp only [List.foldl_nil, List.map_nil, List.count_nil,
      List.replicate_zero, List.append_nil]
    have : l.map (fun c => { c with send_queue := c.send_queue }) = l := by
      have he : ∀ c ∈ l, ({ c with send_queue := c.send_queue } : Client) = c := by
        intro c _
        rfl
      rw [List.map_congr_left he, List.map_id']
    rw [this]
  | cons a cs ih =>
    intro l lk ev
    rw [List.foldl_cons]
    rw [show pool_send (ClientPool.mk l lk ev) a.oid r
        = ClientPool.mk (l.map (fun c => if c.oid = a.oid then client_send c r else c))
            lk ev from rfl]
    rw [ih]
    rw [List.map_map]
    congr 1
    apply List.map_congr_left
    intro c _
    by_cases h : c.oid = a.oid
    · have hcount : ((a :: cs).map Client.oid).count c.oid
          = ((cs.map Client.oid).count c.oid) + 1 := by
        rw [List.map_cons, List.count_cons]
        rw [show (a.oid == c.oid) = true from beq_iff_eq.mpr h.symm]
        rfl
      simp only [Function.comp, if_pos h, hcount, client_send]
      congr 1
      rw [List.append_assoc, List.replicate_succ]
      rfl
    · have hcount : ((a :: cs).map Client.oid).count c.oid
          = (cs.map Client.oid).count c.oid := by
        rw [List.map_cons, List.count_cons]
        rw [show (a.oid == c.oid) = false from
          beq_eq_false_iff_ne.mpr (fun he => h he.symm)]
        rfl
      simp only [Function.comp, if_neg h, hcount]

/-- C2 counterexample: broadcasting echo hi to the two sessions tagged
web enqueues the SAME message reference (index zero) on both queues, not
independent instances; before any response the shared message has no
result, and once a result is stored through one session the message
seen through the other session carries that result too. -/
theorem broadcast_shared_cx :
    ((send_message_by_tag wPool2 "web" 0).clients.map Client.send_queue
        = [[0], [0]]) ∧
      wMsg.results = none ∧
      ((set_result wStore 0 "out")[0]?.map Message.results
        = some (some "out")) := by
  decide

/-- C2 amended: broadcast(tag, command) enqueues one and the same shared
Command instance onto every session matched by findByTag (no copy is
made), so its result field is common to all receivers: setting the
result through one session changes the command referenced by every other
matched session. -/
theorem broadcast_same_ref (p : ClientPool) (tag : String) (r : Nat)
    (hnd : (oids p.clients).Nodup) :
    send_message_by_tag p tag r
      = { p with clients := p.clients.map (fun c =>
          if stripQuotes tag = "*" ∨ stripQuotes tag ∈ c.tags
          then client_send c r else c) } := by
  obtain ⟨l, lk, ev⟩ := p
  simp only [oids] at hnd
  unfold send_message_by_tag find_clients_by_tag
  by_cases hstar : stripQuotes tag = "*"
  · rw [if_pos hstar, sendFold r l l lk ev]
    congr 1
    apply List.map_congr_left
    intro c hc
    rw [if_pos (Or.inl hstar),
      List.count_eq_one_of_mem hnd (List.mem_map_of_mem Client.oid hc)]
    rfl
  · rw [if_neg hstar,
      sendFold r (l.filter (fun c => decide (stripQuotes tag ∈ c.tags))) l lk ev]
    congr 1
    apply List.map_congr_left
    intro c hc
    by_cases hmem : stripQuotes tag ∈ c.tags
    · rw [if_pos (Or.inr hmem)]
      have hcmem : c ∈ l.filter (fun c => decide (stripQuotes tag ∈ c.tags)) :=
        List.mem_filter.mpr ⟨hc, by simpa using hmem⟩
      have hsub : List.Sublist
          ((l.filter (fun c => decide (stripQuotes tag ∈ c.tags))).map Client.oid)
          (l.map Client.oid) :=
        (List.filter_sublist l).map Client.oid
      rw [List.count_eq_one_of_mem (hnd.sublist hsub)
        (List.mem_map_of_mem Client.oid hcmem)]
      rfl
    · rw [if_neg (by rintro (h | h); exact hstar h; exact hmem h)]
      rw [List.count_eq_zero.mpr ?_]
      · simp
      · intro hin
        rcases List.mem_map.mp hin with ⟨c2, hc2, hoid⟩
        rcases List.mem_filter.mp hc2 with ⟨hc2l, hc2t⟩
        have : c2 = c := List.inj_on_of_nodup_map hnd hc2l hc hoid
        subst this
        exact hmem (by simpa using hc2t)

/-- C2 amended witness: the two web sessions, both receiving the shared
reference zero. -/
theorem broadcast_same_ref_witness :
    send_message_by_tag wPool2 "web" 0
      = { wPool2 with clients := wPool2.clients.map (fun c =>
          if stripQuotes "web" = "*" ∨ stripQuotes "web" ∈ c.tags
          then client_send c 0 else c) } :=
  broadcast_same_ref wPool2 "web" 0 (by decide)

theorem shutMap_any_oid (l : List Client) (x : Nat) (h : x ∈ oids l) :
    ((shutMap x l).any (fun c => c.oid == x)) = true := by
  rw [List.any_eq_true]
  rcases List.mem_map.mp h with ⟨c, hc, hx⟩
  refine ⟨if c.oid = x then shutdown c else c,
    List.mem_map_of_mem _ hc, ?_⟩
  rw [if_pos hx]
  simpa [shutdown] using hx

/-- C9 counterexample: broadcast to the web tag performs no lock
acquisition at all (its event trace stays empty), while add does acquire
and release, so it is false that every public registry operation
acquires the exclusive lock for its full duration. -/
theorem broadcast_no_lock_cx :
    (send_message_by_tag wPool2 "web" 0).events = [] ∧
      (add_client wPool2 wClientB).events = [LockEv.acq, LockEv.rel] := by
  constructor
  · decide
  · decide

/-- C9 amended: only add and remove touch the registry lock: add
acquires and releases it, a successful remove acquires and releases it,
a failed remove acquires it and leaves it held; findByTag, tagCounts and
broadcast perform no lock operation at all (they depend only on the
client list, and broadcast leaves the lock trace and lock state
unchanged); removeAllByTag locks only inside each individual remove
rather than for its full duration. -/
theorem lock_discipline :
    (∀ (p : ClientPool) (c : Client),
      (add_client p c).events = p.events ++ [LockEv.acq, LockEv.rel]) ∧
      (∀ (p : ClientPool) (x : Nat), x ∈ oids p.clients →
        (remove_client p x).raised = false ∧
          (remove_client p x).pool.events = p.events ++ [LockEv.acq, LockEv.rel]) ∧
      (∀ (p : ClientPool) (x : Nat), x ∉ oids p.clients →
        (remove_client p x).raised = true ∧
          (remove_client p x).pool.events = p.events ++ [LockEv.acq] ∧
          (remove_client p x).pool.locked = true) ∧
      (∀ (p : ClientPool) (tag : String) (r : Nat),
        (send_message_by_tag p tag r).events = p.events ∧
          (send_message_by_tag p tag r).locked = p.locked) ∧
      (∀ (p q : ClientPool) (tag : String), p.clients = q.clients →
        find_clients_by_tag p tag = find_clients_by_tag q tag) ∧
      (∀ p q : ClientPool, p.clients = q.clients → get_tags p = get_tags q) := by
  refine ⟨fun p c => rfl, ?_, ?_, ?_, ?_, ?_⟩
  · intro p x h
    unfold remove_client
    rw [shutMap_any_oid p.clients x h]
    exact ⟨rfl, rfl⟩
  · intro p x h
    unfold remove_client
    rw [any_oid_false _ _ (by rwa [show oids (shutMap x p.clients) = oids p.clients
      from by
        unfold oids shutMap
        rw [List.map_map]
        apply List.map_congr_left
        intro c _
        by_cases hcx : c.oid = x
        · simp [Function.comp, hcx, shutdown]
        · simp [Function.comp, hcx]])]
    exact ⟨rfl, rfl, rfl⟩
  · intro p tag r
    obtain ⟨l, lk, ev⟩ := p
    unfold send_message_by_tag
    rw [sendFold r (find_clients_by_tag (ClientPool.mk l lk ev) tag) l lk ev]
    exact ⟨rfl, rfl⟩
  · intro p q tag h
    unfold find_clients_by_tag
    rw [h]
  · intro p q h
    unfold get_tags
    rw [h]

/-- C9 amended witness: every clause at the fixtures. -/
theorem lock_discipline_witness :
    (add_client wPool2 wClientB).events = wPool2.events ++ [LockEv.acq, LockEv.rel] ∧
      ((remove_client wPool1 0).raised = false ∧
        (remove_client wPool1 0).pool.events
          = wPool1.events ++ [LockEv.acq, LockEv.rel]) ∧
      ((remove_client wPool1 5).raised = true ∧
        (remove_client wPool1 5).pool.events = wPool1.events ++ [LockEv.acq] ∧
        (remove_client wPool1 5).pool.locked = true) ∧
      ((send_message_by_tag wPool2 "web" 0).events = wPool2.events ∧
        (send_message_by_tag wPool2 "web" 0).locked = wPool2.locked) ∧
      find_clients_by_tag wPool2 "web" = find_clients_by_tag wPool2 "web" ∧
      get_tags wPool2 = get_tags wPool2 :=
  ⟨lock_discipline.1 wPool2 wClientB,
    lock_discipline.2.1 wPool1 0 (by decide),
    lock_discipline.2.2.1 wPool1 5 (by decide),
    lock_discipline.2.2.2.1 wPool2 "web" 0,
    lock_discipline.2.2.2.2.1 wPool2 wPool2 "web" rfl,
    lock_discipline.2.2.2.2.2 wPool2 wPool2 rfl⟩

theorem remove_client_cons_ne (c : Client) (t : List Client) (lk : Bool)
    (ev : List LockEv) (x : Nat) (h : c.oid ≠ x) :
    remove_client (ClientPool.mk (c :: t) lk ev) x
      = RemRes.mk (remove_client (ClientPool.mk t lk ev) x).raised
          (ClientPool.mk
            (c :: (remove_client (ClientPool.mk t lk ev) x).pool.clients)
            (remove_client (ClientPool.mk t lk ev) x).pool.locked
            (remove_client (ClientPool.mk t lk ev) x).pool.events) := by
  have hb : (c.oid == x) = false := beq_eq_false_iff_ne.mpr h
  unfold remove_client shutMap
  simp only [List.map_cons, if_neg h, List.any_cons, hb, Bool.false_or]
  cases hX : (t.map (fun d => if d.oid = x then shutdown d else d)).any
      (fun d => d.oid == x) <;>
    simp [hX, List.eraseP_cons, hb]

theorem remove_at_idx (l : List Client) : ∀ (i : Nat) (h : i < l.length)
    (lk : Bool) (ev : List LockEv), (oids l).Nodup →
    remove_client (ClientPool.mk l lk ev) ((l.get ⟨i, h⟩).oid)
      = RemRes.mk false
          (ClientPool.mk (l.eraseIdx i) false
            (ev ++ [LockEv.acq, LockEv.rel])) := by
  induction l with
  | nil =>
    intro i h
    exact absurd h (by simp)
  | cons c t ih =>
    intro i h lk ev hnd
    have hnd' := List.nodup_cons.mp
      (show (Client.oid c :: List.map Client.oid t).Nodup from hnd)
    have hnot : c.oid ∉ oids t := hnd'.1
    have hndt : (oids t).Nodup := hnd'.2
    cases i with
    | zero =>
      show remove_client (ClientPool.mk (c :: t) lk ev) c.oid = _
      unfold remove_client shutMap
      simp only [List.map_cons, if_pos rfl]
      rw [show t.map (fun d => if d.oid = c.oid then shutdown d else d) = t from by
        simpa [shutMap] using shutMap_not_mem t c.oid hnot]
      simp [List.any_cons, shutdown, List.eraseP_cons]
    | succ i =>
      have h' : i < t.length := by simpa using h
      have hx : (t.get ⟨i, h'⟩).oid ∈ oids t :=
        List.mem_map_of_mem Client.oid (t.get_mem i h')
      have hcx : c.oid ≠ (t.get ⟨i, h'⟩).oid := fun he => hnot (he ▸ hx)
      show remove_client (ClientPool.mk (c :: t) lk ev) ((t.get ⟨i, h'⟩).oid) = _
      rw [remove_client_cons_ne c t lk ev _ hcx, ih i h' lk ev hndt]
      rfl

theorem starLoopF_clients (f : Nat) : ∀ (l : List Client) (i : Nat) (lk : Bool)
    (ev : List LockEv), (oids l).Nodup → l.length ≤ i + f →
    (starLoopF f (ClientPool.mk l lk ev) i).clients
      = l.take i ++ oddIdx (l.drop i) := by
  induction f with
  | zero =>
    intro l i lk ev hnd hlen
    show l = l.take i ++ oddIdx (l.drop i)
    rw [List.drop_eq_nil_of_le (by omega), List.take_of_length_le (by omega)]
    simp [oddIdx]
  | succ f ih =>
    intro l i lk ev hnd hlen
    by_cases hi : i < l.length
    · show (starLoopF (Nat.succ f) (ClientPool.mk l lk ev) i).clients = _
      unfold starLoopF
      rw [dif_pos hi]
      rw [remove_at_idx l i hi lk ev hnd]
      rw [ih (l.eraseIdx i) (i + 1) false (ev ++ [LockEv.acq, LockEv.rel])
        (List.Nodup.sublist ((List.eraseIdx_sublist l i).map Client.oid) hnd)
        (by rw [List.length_eraseIdx_of_lt hi]; omega)]
      rw [List.eraseIdx_eq_take_drop_succ]
      have htk : (l.take i).length = i := List.length_take_of_le (by omega)
      rw [List.take_append_eq_append_take, List.drop_append_eq_append_drop, htk]
      rw [List.take_take, show min (i + 1) i = i from by omega,
        show i + 1 - i = 1 from by omega]
      rw [List.drop_eq_nil_of_le (le_of_eq_of_le htk (by omega))]
      simp only [List.nil_append]
      rw [List.append_assoc, List.drop_eq_getElem_cons hi]
      congr 1
      cases hb : l.drop (i + 1) with
      | nil => simp [oddIdx]
      | cons y b => simp [oddIdx]
    · show (starLoopF (Nat.succ f) (ClientPool.mk l lk ev) i).clients = _
      unfold starLoopF
      rw [dif_neg hi]
      show l = l.take i ++ oddIdx (l.drop i)
      rw [List.drop_eq_nil_of_le (by omega), List.take_of_length_le (by omega)]
      simp [oddIdx]

theorem snapLoop_skip (cs : List Client) : ∀ (c : Client) (t : List Client)
    (lk : Bool) (ev : List LockEv), (∀ a ∈ cs, a.oid ≠ c.oid) →
    snapLoop cs (ClientPool.mk (c :: t) lk ev)
      = RemRes.mk (snapLoop cs (ClientPool.mk t lk ev)).raised
          (ClientPool.mk
            (c :: (snapLoop cs (ClientPool.mk t lk ev)).pool.clients)
            (snapLoop cs (ClientPool.mk t lk ev)).pool.locked
            (snapLoop cs (ClientPool.mk t lk ev)).pool.events) := by
  induction cs with
  | nil =>
    intro c t lk ev _
    rfl
  | cons a cs ih =>
    intro c t lk ev h
    have ha : c.oid ≠ a.oid := fun he => (h a (List.mem_cons_self a cs)) he.symm
    show (let r := remove_client (ClientPool.mk (c :: t) lk ev) a.oid;
      if r.raised then r else snapLoop cs r.pool) = _
    rw [remove_client_cons_ne c t lk ev a.oid ha]
    rcases hq : remove_client (ClientPool.mk t lk ev) a.oid with ⟨rb, pc, pl, pe⟩
    have hrhs : snapLoop (a :: cs) (ClientPool.mk t lk ev)
        = (if rb then RemRes.mk rb (ClientPool.mk pc pl pe)
            else snapLoop cs (ClientPool.mk pc pl pe)) := by
      show (let r := remove_client (ClientPool.mk t lk ev) a.oid;
        if r.raised then r else snapLoop cs r.pool) = _
      rw [hq]
    rw [hrhs]
    cases rb with
    | true => rfl
    | false =>
      simp only [if_neg (by simp : ¬ (false = true))]
      exact ih c pc pl pe (fun b hb => h b (List.mem_cons_of_mem a hb))

theorem snapLoop_filter (P : Client → Bool) (l : List Client) :
    ∀ (lk : Bool) (ev : List LockEv), (oids l).Nodup →
    (snapLoop (l.filter P) (ClientPool.mk l lk ev)).raised = false ∧
      (snapLoop (l.filter P) (ClientPool.mk l lk ev)).pool.clients
        = l.filter (fun c => !(P c)) := by
  induction l with
  | nil =>
    intro lk ev _
    exact ⟨rfl, rfl⟩
  | cons c t ih =>
    intro lk ev hnd
    have hnd' := List.nodup_cons.mp
      (show (Client.oid c :: List.map Client.oid t).Nodup from hnd)
    have hnot : c.oid ∉ oids t := hnd'.1
    have hndt : (oids t).Nodup := hnd'.2
    cases hP : P c with
    | false =>
      rw [show (c :: t).filter P = t.filter P from by simp [List.filter_cons, hP]]
      have hne : ∀ a ∈ t.filter P, a.oid ≠ c.oid := by
        intro a hafil he
        exact hnot
          (he ▸ List.mem_map_of_mem Client.oid (List.mem_filter.mp hafil).1)
      rw [snapLoop_skip (t.filter P) c t lk ev hne]
      refine ⟨(ih lk ev hndt).1, ?_⟩
      rw [show (c :: t).filter (fun c => !(P c)) = c :: t.filter (fun c => !(P c))
        from by simp [List.filter_cons, hP]]
      exact congrArg (c :: ·) (ih lk ev hndt).2
    | true =>
      rw [show (c :: t).filter P = c :: t.filter P from by
        simp [List.filter_cons, hP]]
      have h0 : remove_client (ClientPool.mk (c :: t) lk ev) c.oid
          = RemRes.mk false
              (ClientPool.mk t false (ev ++ [LockEv.acq, LockEv.rel])) := by
        have := remove_at_idx (c :: t) 0 (by simp) lk ev hnd
        simpa using this
      have hstep : snapLoop (c :: t.filter P) (ClientPool.mk (c :: t) lk ev)
          = snapLoop (t.filter P)
              (ClientPool.mk t false (ev ++ [LockEv.acq, LockEv.rel])) := by
        show (let r := remove_client (ClientPool.mk (c :: t) lk ev) c.oid;
          if r.raised then r else snapLoop (t.filter P) r.pool) = _
        rw [h0]
        rfl
      rw [hstep]
      refine ⟨(ih false (ev ++ [LockEv.acq, LockEv.rel]) hndt).1, ?_⟩
      rw [show (c :: t).filter (fun c => !(P c)) = t.filter (fun c => !(P c))
        from by simp [List.filter_cons, hP]]
      exact (ih false (ev ++ [LockEv.acq, LockEv.rel]) hndt).2

/-- C1 counterexample: with two live sessions, removeAllByTag of the
wildcard does not empty the registry: findByTag returned the registry
list itself, the for statement iterates it by index while remove_client
shrinks it, so only the first session is removed and the second
survives. -/
theorem removeAll_star_cx :
    (remove_clients_by_tag wPool2 "*").pool.clients = [wClientB] ∧
      [wClientB] ≠ ([] : List Client) := by
  constructor
  · decide
  · decide

/-- C1 amended: for a tag whose quote stripped form is not the wildcard,
removeAllByTag removes exactly the sessions whose tag set contains the
stripped tag at call time and no others; but removeAllByTag of the
wildcard iterates the registry list itself while shrinking it, so it
removes only the sessions at even zero based positions and leaves every
second session (odd positions) in the registry, which in particular need
not end up empty. -/
theorem removeAllByTag_behavior :
    (∀ (p : ClientPool) (tag : String),
      (oids p.clients).Nodup → stripQuotes tag ≠ "*" →
      (remove_clients_by_tag p tag).raised = false ∧
        (remove_clients_by_tag p tag).pool.clients
          = p.clients.filter (fun c => !(decide (stripQuotes tag ∈ c.tags)))) ∧
      (∀ p : ClientPool, (oids p.clients).Nodup →
        (remove_clients_by_tag p "*").pool.clients = oddIdx p.clients) := by
  constructor
  · intro p tag hnd hstar
    obtain ⟨l, lk, ev⟩ := p
    unfold remove_clients_by_tag find_clients_by_tag
    rw [if_neg hstar, if_neg hstar]
    exact snapLoop_filter (fun c => decide (stripQuotes tag ∈ c.tags)) l lk ev hnd
  · intro p hnd
    obtain ⟨l, lk, ev⟩ := p
    unfold remove_clients_by_tag
    rw [if_pos (show stripQuotes "*" = "*" from by decide)]
    rw [show (RemRes.mk false
        (starLoopF ((ClientPool.mk l lk ev).clients.length + 1)
          (ClientPool.mk l lk ev) 0)).pool
      = starLoopF (l.length + 1) (ClientPool.mk l lk ev) 0 from rfl]
    rw [starLoopF_clients (l.length + 1) l 0 lk ev hnd (by omega)]
    rfl

/-- C1 amended witness: a non wildcard removal on the two session
registry, and the wildcard removal on the same registry. -/
theorem removeAllByTag_behavior_witness :
    ((remove_clients_by_tag wPool2 "web").raised = false ∧
      (remove_clients_by_tag wPool2 "web").pool.clients
        = wPool2.clients.filter
            (fun c => !(decide (stripQuotes "web" ∈ c.tags)))) ∧
      (remove_clients_by_tag wPool2 "*").pool.clients = oddIdx wPool2.clients :=
  ⟨removeAllByTag_behavior.1 wPool2 "web" (by decide) (by decide),
    removeAllByTag_behavior.2 wPool2 (by decide)⟩

end ShellSherpa
